import Mathlib

/-!
# Verification of the Symbol message codec (src/service/message.ts)

Shallow embedding of `MessageEncoder` and its helpers. JavaScript
`Uint8Array` values are `List (Fin 256)`; `string | Uint8Array` parameters
are an explicit sum (`JsInput`); code that can throw returns
`Except String _` where the error is the JS `Error.message`. The
cryptographic primitives (`encodeAesGcm`, `decodeAesGcm`,
`deriveSharedKey`) and the `Convert` utilities live outside the embedded
source file; the former are abstracted as a parameter record
(`AeadPrimitives`) with their spec-assumed behaviour collected in
`AeadSpec`, the latter are modelled from the spec.
-/

namespace SymbolMessage

abbrev Byte := Fin 256
abbrev Bytes := List Byte

/-- Truncate a natural number to a byte (JS `Uint8Array` element semantics). -/
def byteOf (n : Nat) : Byte := ⟨n % 256, Nat.mod_lt _ (by decide)⟩

/-- Modelled from the spec: hex digit character (uppercase) used by
`Convert.uint8ToHex`, which is not under the embedded source tree. -/
def hexDigitOfNat (n : Nat) : Char :=
  if n < 10 then Char.ofNat (48 + n) else Char.ofNat (55 + n)

/-- Modelled from the spec: numeric value of a hex character in
`0-9a-fA-F`, `none` otherwise. -/
def hexDigitValue? (c : Char) : Option Nat :=
  if 48 ≤ c.toNat ∧ c.toNat ≤ 57 then some (c.toNat - 48)
  else if 65 ≤ c.toNat ∧ c.toNat ≤ 70 then some (c.toNat - 55)
  else if 97 ≤ c.toNat ∧ c.toNat ≤ 102 then some (c.toNat - 87)
  else none

namespace Convert

/-- Modelled from the spec: `Convert.uint8ToHex` renders each byte as two
hex characters, concatenated. -/
def uint8ToHex (b : Bytes) : String :=
  ⟨b.flatMap (fun x => [hexDigitOfNat (x.val / 16), hexDigitOfNat (x.val % 16)])⟩

/-- Modelled from the spec: parse a character list as consecutive hex-digit
pairs; `none` on an odd length or a non-hex character. -/
def hexCharsToBytes? : List Char → Option Bytes
  | [] => some []
  | [_] => none
  | c1 :: c2 :: rest =>
    match hexDigitValue? c1, hexDigitValue? c2, hexCharsToBytes? rest with
    | some h, some l, some t => some (byteOf (16 * h + l) :: t)
    | _, _, _ => none

/-- Modelled from the spec: `Convert.hexToUint8`, as a partial parse. -/
def hexToUint8? (s : String) : Option Bytes := hexCharsToBytes? s.data

/-- Modelled from the spec: `Convert.isHexString` — even length and every
character a hex digit. -/
def isHexString (s : String) : Bool :=
  s.data.length % 2 == 0 && s.data.all (fun c => (hexDigitValue? c).isSome)

/-- Modelled from the spec: `Convert.utf8ToUint8`, standard UTF-8 encoding
of the text's code points. -/
def utf8ToUint8 (s : String) : Bytes :=
  s.data.flatMap (fun c =>
    let n := c.toNat
    if n < 128 then [byteOf n]
    else if n < 2048 then [byteOf (192 + n / 64), byteOf (128 + n % 64)]
    else if n < 65536 then
      [byteOf (224 + n / 4096), byteOf (128 + n / 64 % 64), byteOf (128 + n % 64)]
    else
      [byteOf (240 + n / 262144), byteOf (128 + n / 4096 % 64),
       byteOf (128 + n / 64 % 64), byteOf (128 + n % 64)])

end Convert

/-- A `string | Uint8Array` JavaScript parameter. -/
inductive JsInput
  | bytes (b : Bytes)
  | str (s : String)

/-- Modelled from the spec: normalization of a hex-or-bytes parameter via
`Convert.hexToUint8`, which throws on malformed hex input. -/
def normalizeHexInput : JsInput → Except String Bytes
  | .bytes b => .ok b
  | .str s =>
    match Convert.hexToUint8? s with
    | some b => .ok b
    | none => .error "malformed hex input"

/-- Normalization of a utf8-text-or-bytes parameter (`encode`'s message). -/
def normalizeUtf8Input : JsInput → Bytes
  | .bytes b => b
  | .str s => Convert.utf8ToUint8 s

/-- `statement.leadsWith pat`-style prefix test on character lists. -/
def leadsWith : List Char → List Char → Bool
  | [], _ => true
  | _ :: _, [] => false
  | a :: as, b :: bs => a == b && leadsWith as bs

/-- Occurrence of `pat` as a contiguous sublist. -/
def occursIn (pat : List Char) : List Char → Bool
  | [] => pat.isEmpty
  | c :: rest => leadsWith pat (c :: rest) || occursIn pat rest

/-- JavaScript `String.prototype.includes`. -/
def jsIncludes (s pat : String) : Bool := occursIn pat.data s.data

/-- The `{tag, initializationVector, cipherText}` record returned by
`encodeAesGcm` — hex strings, as the source concatenates them with `'01'`. -/
structure AesGcmResult where
  tag : String
  initializationVector : String
  cipherText : String

/-- Modelled from the spec: the external cryptographic primitives consumed
by `message.ts` (`deriveSharedKey`, `encodeAesGcm`, `decodeAesGcm`), kept
abstract; `decodeAesGcm` may throw, reported as `Except.error` carrying the
JS error message. -/
structure AeadPrimitives where
  deriveSharedKey : Bytes → Bytes → Bytes
  encodeAesGcm : (Bytes → Bytes → Bytes) → Bytes → Bytes → Bytes → AesGcmResult
  decodeAesGcm : (Bytes → Bytes → Bytes) → Bytes → Bytes → Bytes → Except String Bytes

/-- `utf8ArrayToString` from the source: one `String.fromCharCode` per byte. -/
def utf8ArrayToString (b : Bytes) : String :=
  ⟨b.map (fun x => Char.ofNat x.val)⟩

/-- `filterExceptions` from the source: an `ok` outcome becomes
`(true, some message)`; a thrown error whose message includes one of the
listed substrings is swallowed into `(false, none)`; any other error is
re-thrown. -/
def filterExceptions (statement : Except String Bytes) (exceptions : List String) :
    Except String (Bool × Option Bytes) :=
  match statement with
  | .ok message => .ok (true, some message)
  | .error e =>
    if exceptions.any (fun exceptionMessage => jsIncludes e exceptionMessage) then
      .ok (false, none)
    else
      .error e

/-- The `TryDecodeResult` message field: a decoded text or the raw bytes. -/
inductive DecodedMessage
  | text (s : String)
  | raw (b : Bytes)
  deriving DecidableEq, Repr

/-- `TryDecodeResult` from the model module. -/
structure TryDecodeResult where
  isDecoded : Bool
  message : DecodedMessage
  deriving DecidableEq, Repr

namespace MessageEncoder

/-- Body of `MessageEncoder.tryDecode` after input normalization. -/
def tryDecodeBytes (P : AeadPrimitives) (privateKey senderPublicKey encodedMessage : Bytes) :
    Except String TryDecodeResult :=
  if encodedMessage.head? == some 1 then
    match filterExceptions
        (P.decodeAesGcm P.deriveSharedKey privateKey senderPublicKey (encodedMessage.drop 1))
        ["Unsupported state or unable to authenticate data", "invalid point"] with
    | .error e => .error e
    | .ok (result, message) =>
      if result then
        .ok ⟨true, .text (utf8ArrayToString (message.getD []))⟩
      else
        .ok ⟨false, .raw encodedMessage⟩
  else
    .ok ⟨false, .raw encodedMessage⟩

/-- `MessageEncoder.tryDecode` from the source. -/
def tryDecode (P : AeadPrimitives) (privateKey : Bytes)
    (senderPublicKey encodedMessage : JsInput) : Except String TryDecodeResult := do
  let spk ← normalizeHexInput senderPublicKey
  let em ← normalizeHexInput encodedMessage
  tryDecodeBytes P privateKey spk em

/-- Body of `MessageEncoder.encode` after input normalization. -/
def encodeBytes (P : AeadPrimitives) (privateKey recipientPublicKey message : Bytes) :
    Except String Bytes :=
  let r := P.encodeAesGcm P.deriveSharedKey privateKey recipientPublicKey message
  match Convert.hexToUint8? ("01" ++ r.tag ++ r.initializationVector ++ r.cipherText) with
  | some b => .ok b
  | none => .error "malformed hex input"

/-- `MessageEncoder.encode` from the source. -/
def encode (P : AeadPrimitives) (privateKey : Bytes)
    (recipientPublicKey message : JsInput) : Except String Bytes := do
  let rpk ← normalizeHexInput recipientPublicKey
  encodeBytes P privateKey rpk (normalizeUtf8Input message)

/-- `MessageEncoder.encodeDeprecated` from the source: hex-encode the
payload of `encode`, parse that hex text back to bytes, re-prepend `1`. -/
def encodeDeprecated (P : AeadPrimitives) (privateKey : Bytes)
    (recipientPublicKey message : JsInput) : Except String Bytes := do
  let encoded ← encode P privateKey recipientPublicKey message
  let encodedHexString := Convert.uint8ToHex (encoded.drop 1)
  match Convert.hexToUint8? encodedHexString with
  | some encodedHexStringBytes => .ok (1 :: encodedHexStringBytes)
  | none => .error "malformed hex input"

/-- `MessageEncoder.tryDecodeDeprecated` from the source. -/
def tryDecodeDeprecated (P : AeadPrimitives) (privateKey : Bytes)
    (senderPublicKey encodedMessage : JsInput) : Except String TryDecodeResult := do
  let spk ← normalizeHexInput senderPublicKey
  let em ← normalizeHexInput encodedMessage
  let encodedHexString := Convert.uint8ToHex (em.drop 1)
  if em.head? == some 1 && Convert.isHexString encodedHexString then
    match Convert.hexToUint8? encodedHexString with
    | some b => tryDecodeBytes P privateKey spk (1 :: b)
    | none => .error "malformed hex input"
  else
    tryDecodeBytes P privateKey spk em

end MessageEncoder

/-- Modelled from the spec: the behaviour assumed of the external AEAD and
key-agreement primitives — the encoder's tag, IV and ciphertext are hex
strings of the fixed lengths `2*tagLen`, `2*ivLen` and twice the plaintext
length, and decoding the concatenated raw bytes with the same key material
recovers the plaintext (determinism of the shared-key derivation is implicit
in the functional model). -/
structure AeadSpec (P : AeadPrimitives) (tagLen ivLen : Nat) : Prop where
  tag_ok : ∀ sk pk m, ∃ tb : Bytes, tb.length = tagLen ∧
    Convert.hexToUint8? (P.encodeAesGcm P.deriveSharedKey sk pk m).tag = some tb
  iv_ok : ∀ sk pk m, ∃ vb : Bytes, vb.length = ivLen ∧
    Convert.hexToUint8? (P.encodeAesGcm P.deriveSharedKey sk pk m).initializationVector = some vb
  ct_ok : ∀ sk pk m, ∃ cb : Bytes, cb.length = m.length ∧
    Convert.hexToUint8? (P.encodeAesGcm P.deriveSharedKey sk pk m).cipherText = some cb
  round_trip : ∀ sk pk m tb vb cb,
    Convert.hexToUint8? (P.encodeAesGcm P.deriveSharedKey sk pk m).tag = some tb →
    Convert.hexToUint8? (P.encodeAesGcm P.deriveSharedKey sk pk m).initializationVector = some vb →
    Convert.hexToUint8? (P.encodeAesGcm P.deriveSharedKey sk pk m).cipherText = some cb →
    P.decodeAesGcm P.deriveSharedKey sk pk (tb ++ vb ++ cb) = .ok m

/-- A concrete primitive instance with 16-byte tags and 12-byte IVs whose
"ciphertext" is the plaintext, used to instantiate the abstract theorems. -/
def trivialPrimitives : AeadPrimitives where
  deriveSharedKey := fun _ _ => []
  encodeAesGcm := fun _ _ _ message =>
    ⟨Convert.uint8ToHex (List.replicate 16 0), Convert.uint8ToHex (List.replicate 12 0),
     Convert.uint8ToHex message⟩
  decodeAesGcm := fun _ _ _ payload =>
    if 28 ≤ payload.length then .ok (payload.drop 28)
    else .error "Unsupported state or unable to authenticate data"

/-- A primitive instance whose decoder always throws `msg`. -/
def failingPrimitives (msg : String) : AeadPrimitives where
  deriveSharedKey := fun _ _ => []
  encodeAesGcm := fun _ _ _ _ => ⟨"", "", ""⟩
  decodeAesGcm := fun _ _ _ _ => .error msg

/-- A primitive instance whose decoder always succeeds with `m`. -/
def constantPrimitives (m : Bytes) : AeadPrimitives where
  deriveSharedKey := fun _ _ => []
  encodeAesGcm := fun _ _ _ _ => ⟨"", "", ""⟩
  decodeAesGcm := fun _ _ _ _ => .ok m

end SymbolMessage
namespace SymbolMessage

theorem hexDigitValue?_hexDigitOfNat : ∀ n : Fin 16,
    hexDigitValue? (hexDigitOfNat n.val) = some n.val := by decide

theorem hexDigitValue?_lt {c : Char} {h : Nat} (hc : hexDigitValue? c = some h) : h < 16 := by
  unfold hexDigitValue? at hc
  split at hc
  · cases hc; omega
  · split at hc
    · cases hc; omega
    · split at hc
      · cases hc; omega
      · cases hc

set_option maxRecDepth 4096 in
theorem char_toNat_ofNat_byte : ∀ x : Byte, (Char.ofNat x.val).toNat = x.val := by decide

end SymbolMessage
namespace SymbolMessage

theorem hexCharsToBytes?_append {l1 l2 : List Char} {b1 b2 : Bytes}
    (h1 : Convert.hexCharsToBytes? l1 = some b1)
    (h2 : Convert.hexCharsToBytes? l2 = some b2) :
    Convert.hexCharsToBytes? (l1 ++ l2) = some (b1 ++ b2) := by
  induction l1 using Convert.hexCharsToBytes?.induct generalizing b1 with
  | case1 =>
    simp [Convert.hexCharsToBytes?] at h1
    subst h1
    simpa using h2
  | case2 c =>
    simp [Convert.hexCharsToBytes?] at h1
  | case3 c1 c2 rest h l t hc1 hc2 hrest ih =>
    rw [Convert.hexCharsToBytes?] at h1
    rw [hc1, hc2, hrest] at h1
    cases h1
    simp only [List.cons_append]
    rw [Convert.hexCharsToBytes?, hrest, hc2, ih hc1]
  | case4 c1 c2 rest hnone =>
    rw [Convert.hexCharsToBytes?] at h1
    split at h1
    · rename_i h l t hc1 hc2 hrest
      exact absurd (hnone h l t hc1 hc2 hrest) (by simp)
    · cases h1

end SymbolMessage
namespace SymbolMessage

theorem uint8ToHex_data (b : Bytes) :
    (Convert.uint8ToHex b).data =
      b.flatMap (fun x => [hexDigitOfNat (x.val / 16), hexDigitOfNat (x.val % 16)]) := rfl

theorem hexDigit_fst (x : Byte) : hexDigitValue? (hexDigitOfNat (x.val / 16)) = some (x.val / 16) := by
  have h16 : x.val / 16 < 16 := by omega
  exact hexDigitValue?_hexDigitOfNat ⟨x.val / 16, h16⟩

theorem hexDigit_snd (x : Byte) : hexDigitValue? (hexDigitOfNat (x.val % 16)) = some (x.val % 16) := by
  have h16 : x.val % 16 < 16 := by omega
  exact hexDigitValue?_hexDigitOfNat ⟨x.val % 16, h16⟩

theorem byteOf_divmod (x : Byte) : byteOf (16 * (x.val / 16) + x.val % 16) = x := by
  have : 16 * (x.val / 16) + x.val % 16 = x.val := by omega
  rw [this]
  apply Fin.ext
  simp [byteOf, Nat.mod_eq_of_lt x.isLt]

theorem hexToUint8?_uint8ToHex (b : Bytes) :
    Convert.hexToUint8? (Convert.uint8ToHex b) = some b := by
  unfold Convert.hexToUint8?
  rw [uint8ToHex_data]
  induction b with
  | nil => simp [Convert.hexCharsToBytes?]
  | cons x rest ih =>
    rw [List.flatMap_cons]
    simp only [List.cons_append, List.nil_append]
    rw [Convert.hexCharsToBytes?, hexDigit_fst, hexDigit_snd, ih]
    simp [byteOf_divmod]

theorem uint8ToHex_data_length (b : Bytes) :
    (Convert.uint8ToHex b).data.length = 2 * b.length := by
  rw [uint8ToHex_data]
  induction b with
  | nil => simp
  | cons x rest ih =>
    rw [List.flatMap_cons]
    simp only [List.cons_append, List.nil_append, List.length_cons, ih, List.length_cons]
    omega

theorem uint8ToHex_all_hex (b : Bytes) :
    (Convert.uint8ToHex b).data.all (fun c => (hexDigitValue? c).isSome) = true := by
  rw [uint8ToHex_data]
  induction b with
  | nil => simp
  | cons x rest ih =>
    rw [List.flatMap_cons]
    simp only [List.cons_append, List.nil_append, List.all_cons, ih, Bool.and_true]
    simp [hexDigit_fst x, hexDigit_snd x]

theorem isHexString_uint8ToHex (b : Bytes) :
    Convert.isHexString (Convert.uint8ToHex b) = true := by
  unfold Convert.isHexString
  rw [uint8ToHex_data_length, uint8ToHex_all_hex]
  simp [Nat.mul_mod_right]

end SymbolMessage
namespace SymbolMessage

theorem hexCharsToBytes?_cons01 {rest : List Char} {b : Bytes}
    (h : Convert.hexCharsToBytes? rest = some b) :
    Convert.hexCharsToBytes? ('0' :: '1' :: rest) = some (1 :: b) := by
  rw [Convert.hexCharsToBytes?]
  have h0 : hexDigitValue? '0' = some 0 := by decide
  have h1 : hexDigitValue? '1' = some 1 := by decide
  rw [h0, h1, h]
  simp only
  congr 1

theorem hexCharsToBytes?_cons01_inv {rest : List Char} {env : Bytes}
    (h : Convert.hexCharsToBytes? ('0' :: '1' :: rest) = some env) :
    ∃ t, Convert.hexCharsToBytes? rest = some t ∧ env = 1 :: t := by
  rw [Convert.hexCharsToBytes?] at h
  have h0 : hexDigitValue? '0' = some 0 := by decide
  have h1 : hexDigitValue? '1' = some 1 := by decide
  rw [h0, h1] at h
  cases ht : Convert.hexCharsToBytes? rest with
  | none => rw [ht] at h; cases h
  | some t =>
    rw [ht] at h
    simp only at h
    cases h
    exact ⟨t, rfl, rfl⟩

theorem data_append_four (t u v : String) :
    ("01" ++ t ++ u ++ v).data = '0' :: '1' :: (t.data ++ u.data ++ v.data) := by
  simp [String.data_append]

end SymbolMessage
namespace SymbolMessage
namespace MessageEncoder

theorem encodeBytes_def (P : AeadPrimitives) (sk pk m : Bytes) :
    encodeBytes P sk pk m =
      match Convert.hexToUint8?
          ("01" ++ (P.encodeAesGcm P.deriveSharedKey sk pk m).tag ++
            (P.encodeAesGcm P.deriveSharedKey sk pk m).initializationVector ++
            (P.encodeAesGcm P.deriveSharedKey sk pk m).cipherText) with
      | some b => .ok b
      | none => .error "malformed hex input" := rfl

theorem encodeBytes_eq_of_parses (P : AeadPrimitives) (sk pk m : Bytes) {tb vb cb : Bytes}
    (htag : Convert.hexToUint8?
      (P.encodeAesGcm P.deriveSharedKey sk pk m).tag = some tb)
    (hiv : Convert.hexToUint8?
      (P.encodeAesGcm P.deriveSharedKey sk pk m).initializationVector = some vb)
    (hct : Convert.hexToUint8?
      (P.encodeAesGcm P.deriveSharedKey sk pk m).cipherText = some cb) :
    encodeBytes P sk pk m = .ok (1 :: (tb ++ vb ++ cb)) := by
  rw [encodeBytes_def]
  unfold Convert.hexToUint8? at htag hiv hct ⊢
  rw [data_append_four]
  rw [hexCharsToBytes?_cons01 (hexCharsToBytes?_append (hexCharsToBytes?_append htag hiv) hct)]

theorem encodeBytes_ok_shape {P : AeadPrimitives} {sk pk m env : Bytes}
    (h : encodeBytes P sk pk m = .ok env) : ∃ t, env = 1 :: t := by
  rw [encodeBytes_def] at h
  unfold Convert.hexToUint8? at h
  rw [data_append_four] at h
  cases hp : Convert.hexCharsToBytes?
      ('0' :: '1' ::
        ((P.encodeAesGcm P.deriveSharedKey sk pk m).tag.data ++
          (P.encodeAesGcm P.deriveSharedKey sk pk m).initializationVector.data ++
          (P.encodeAesGcm P.deriveSharedKey sk pk m).cipherText.data)) with
  | none => rw [hp] at h; cases h
  | some b =>
    rw [hp] at h
    simp only at h
    cases h
    obtain ⟨t, -, ht⟩ := hexCharsToBytes?_cons01_inv hp
    exact ⟨t, ht⟩

end MessageEncoder
end SymbolMessage
namespace SymbolMessage
namespace MessageEncoder

theorem tryDecodeBytes_ok {P : AeadPrimitives} {sk spk em m : Bytes}
    (hm : em.head? = some 1)
    (hdec : P.decodeAesGcm P.deriveSharedKey sk spk (em.drop 1) = .ok m) :
    tryDecodeBytes P sk spk em = .ok ⟨true, .text (utf8ArrayToString m)⟩ := by
  unfold tryDecodeBytes
  rw [hm]
  simp only [beq_self_eq_true, if_true]
  rw [hdec]
  rfl

theorem tryDecodeBytes_error {P : AeadPrimitives} {sk spk em : Bytes} {e : String}
    (hm : em.head? = some 1)
    (hdec : P.decodeAesGcm P.deriveSharedKey sk spk (em.drop 1) = .error e) :
    tryDecodeBytes P sk spk em =
      if jsIncludes e "Unsupported state or unable to authenticate data" || jsIncludes e "invalid point"
      then .ok ⟨false, .raw em⟩ else .error e := by
  unfold tryDecodeBytes
  rw [hm]
  simp only [beq_self_eq_true, if_true]
  rw [hdec]
  unfold filterExceptions
  simp only [List.any_cons, List.any_nil, Bool.or_false]
  cases hcase : (jsIncludes e "Unsupported state or unable to authenticate data" ||
      jsIncludes e "invalid point") with
  | true => simp
  | false => simp

theorem tryDecodeBytes_no_marker {P : AeadPrimitives} {sk spk em : Bytes}
    (hm : em.head? ≠ some 1) :
    tryDecodeBytes P sk spk em = .ok ⟨false, .raw em⟩ := by
  unfold tryDecodeBytes
  have : (em.head? == some 1) = false := by
    simp only [beq_eq_false_iff_ne, ne_eq]
    exact hm
  rw [this]
  simp

end MessageEncoder
end SymbolMessage
namespace SymbolMessage

theorem normalizeHexInput_bytes (b : Bytes) : normalizeHexInput (.bytes b) = .ok b := rfl

namespace MessageEncoder

theorem tryDecode_bytes_eq (P : AeadPrimitives) (sk spk em : Bytes) :
    tryDecode P sk (.bytes spk) (.bytes em) = tryDecodeBytes P sk spk em := rfl

theorem encode_bytes_eq (P : AeadPrimitives) (sk pk m : Bytes) :
    encode P sk (.bytes pk) (.bytes m) = encodeBytes P sk pk m := rfl

/-- `encodeDeprecated` collapses to `encode`: the hex round trip
`hexToUint8 ∘ uint8ToHex` is the identity and `encode`'s output starts with
the marker byte, so re-prepending `1` reconstructs the very same bytes. -/
theorem encodeDeprecated_eq_encode_helper (P : AeadPrimitives) (sk : Bytes)
    (rpk m : JsInput) : encodeDeprecated P sk rpk m = encode P sk rpk m := by
  unfold encodeDeprecated
  cases henc : encode P sk rpk m with
  | error e => rfl
  | ok env =>
    have hshape : ∃ t, env = 1 :: t := by
      unfold encode at henc
      cases hn : normalizeHexInput rpk with
      | error e => rw [hn] at henc; cases henc
      | ok rpkb =>
        rw [hn] at henc
        simp only [bind, Except.bind] at henc
        exact encodeBytes_ok_shape henc
    obtain ⟨t, ht⟩ := hshape
    simp only [bind, Except.bind]
    rw [hexToUint8?_uint8ToHex (env.drop 1)]
    simp only
    rw [ht]
    rfl

/-- `tryDecodeDeprecated` collapses to `tryDecode`: the guard tests
`isHexString` on `uint8ToHex`'s output (always valid hex), and the hex round
trip reconstructs the original envelope. -/
theorem tryDecodeDeprecated_eq_tryDecode_helper (P : AeadPrimitives) (sk : Bytes)
    (spk em : JsInput) : tryDecodeDeprecated P sk spk em = tryDecode P sk spk em := by
  unfold tryDecodeDeprecated tryDecode
  cases hs : normalizeHexInput spk with
  | error e => rfl
  | ok spkb =>
    cases he : normalizeHexInput em with
    | error e => rfl
    | ok emb =>
      simp only [bind, Except.bind]
      rw [isHexString_uint8ToHex (emb.drop 1)]
      cases hhead : emb.head? with
      | none =>
        simp only [Bool.and_true]
        have : ((none : Option Byte) == some 1) = false := by decide
        rw [this]
        simp
      | some x =>
        by_cases hx : x = 1
        · subst hx
          simp only [beq_self_eq_true, Bool.and_true, if_true]
          rw [hexToUint8?_uint8ToHex (emb.drop 1)]
          have hemb : emb = 1 :: emb.drop 1 := by
            cases emb with
            | nil => cases hhead
            | cons a rest =>
              simp only [List.head?_cons, Option.some.injEq] at hhead
              rw [hhead]
              rfl
          simp only
          conv_rhs => rw [hemb]
        · have : ((some x : Option Byte) == some 1) = false := by
            simp only [beq_eq_false_iff_ne, ne_eq, Option.some.injEq]
            exact hx
          rw [this]
          simp

end MessageEncoder
end SymbolMessage
namespace SymbolMessage

theorem trivialPrimitives_spec : AeadSpec trivialPrimitives 16 12 := by
  constructor
  · intro sk pk m
    exact ⟨List.replicate 16 0, by simp, hexToUint8?_uint8ToHex _⟩
  · intro sk pk m
    exact ⟨List.replicate 12 0, by simp, hexToUint8?_uint8ToHex _⟩
  · intro sk pk m
    exact ⟨m, rfl, hexToUint8?_uint8ToHex _⟩
  · intro sk pk m tb vb cb htag hiv hct
    simp only [trivialPrimitives] at htag hiv hct ⊢
    rw [hexToUint8?_uint8ToHex] at htag hiv hct
    cases htag; cases hiv; cases hct
    show (if 28 ≤ _ then _ else _) = _
    rw [if_pos (by simp)]
    congr 1


end SymbolMessage
namespace SymbolMessage

theorem utf8ArrayToString_codePoints (b : Bytes) :
    (utf8ArrayToString b).data.map Char.toNat = b.map Fin.val := by
  unfold utf8ArrayToString
  rw [List.map_map]
  have : (Char.toNat ∘ fun x : Byte => Char.ofNat x.val) = Fin.val :=
    funext fun x => char_toNat_ofNat_byte x
  rw [this]

theorem utf8ArrayToString_length (b : Bytes) :
    (utf8ArrayToString b).length = b.length := by
  unfold utf8ArrayToString
  show (b.map _).length = b.length
  rw [List.length_map]

/-- C1: for every key pair and plaintext, decoding (with the same
private-key codec and peer public key) the envelope produced by `encode`
yields `{isDecoded := true}` carrying exactly the plaintext (its byte-wise
widening as a string, whose code points are exactly the plaintext bytes),
assuming the spec-stated behaviour of the AEAD primitives. -/
theorem tryDecode_encode_roundTrip (P : AeadPrimitives) (tagLen ivLen : Nat)
    (hP : AeadSpec P tagLen ivLen) (privB pubA M : Bytes) :
    ∃ env : Bytes,
      MessageEncoder.encode P privB (.bytes pubA) (.bytes M) = .ok env ∧
      MessageEncoder.tryDecode P privB (.bytes pubA) (.bytes env) =
        .ok ⟨true, .text (utf8ArrayToString M)⟩ ∧
      (utf8ArrayToString M).data.map Char.toNat = M.map Fin.val := by
  obtain ⟨tb, htl, htag⟩ := hP.tag_ok privB pubA M
  obtain ⟨vb, hvl, hiv⟩ := hP.iv_ok privB pubA M
  obtain ⟨cb, hcl, hct⟩ := hP.ct_ok privB pubA M
  refine ⟨1 :: (tb ++ vb ++ cb), ?_, ?_, utf8ArrayToString_codePoints M⟩
  · rw [MessageEncoder.encode_bytes_eq]
    exact MessageEncoder.encodeBytes_eq_of_parses P privB pubA M htag hiv hct
  · rw [MessageEncoder.tryDecode_bytes_eq]
    apply MessageEncoder.tryDecodeBytes_ok
    · rfl
    · show P.decodeAesGcm _ _ _ ((1 :: (tb ++ vb ++ cb)).drop 1) = _
      simp only [List.drop_succ_cons, List.drop_zero]
      exact hP.round_trip privB pubA M tb vb cb htag hiv hct

theorem tryDecode_encode_roundTrip_witness :
    ∃ env : Bytes,
      MessageEncoder.encode trivialPrimitives [] (.bytes []) (.bytes [104, 101, 108, 108, 111]) =
        .ok env ∧
      MessageEncoder.tryDecode trivialPrimitives [] (.bytes []) (.bytes env) =
        .ok ⟨true, .text (utf8ArrayToString [104, 101, 108, 108, 111])⟩ ∧
      (utf8ArrayToString [104, 101, 108, 108, 111]).data.map Char.toNat =
        ([104, 101, 108, 108, 111] : Bytes).map Fin.val :=
  tryDecode_encode_roundTrip trivialPrimitives 16 12 trivialPrimitives_spec [] []
    [104, 101, 108, 108, 111]

end SymbolMessage
namespace SymbolMessage

/-- C2: contrary to the spec, `encodeDeprecated` returns bytes *equal* to
`encode`'s output: the source hex-encodes the payload and immediately
re-parses that hex text back to raw bytes (`hexToUint8 ∘ uint8ToHex = id`),
so no hex-text characters ever reach the output. The second conjunct
evaluates both paths on a concrete input. -/
theorem encodeDeprecated_collapses_to_encode :
    (∀ (P : AeadPrimitives) (sk : Bytes) (rpk m : JsInput),
      MessageEncoder.encodeDeprecated P sk rpk m = MessageEncoder.encode P sk rpk m) ∧
    MessageEncoder.encodeDeprecated trivialPrimitives [] (.bytes [])
        (.bytes [104, 101, 108, 108, 111]) =
      .ok (1 :: (List.replicate 16 0 ++ List.replicate 12 0 ++ [104, 101, 108, 108, 111])) ∧
    MessageEncoder.encode trivialPrimitives [] (.bytes [])
        (.bytes [104, 101, 108, 108, 111]) =
      .ok (1 :: (List.replicate 16 0 ++ List.replicate 12 0 ++ [104, 101, 108, 108, 111])) := by
  refine ⟨MessageEncoder.encodeDeprecated_eq_encode_helper, ?_, ?_⟩
  · rfl
  · rfl

/-- C3: for an envelope with marker byte `1`, a failure of the decryption
primitive whose message includes one of the two recognized substrings is
converted into `{isDecoded := false, message := envelope}`, and any other
failure is re-thrown unchanged. -/
theorem tryDecode_filters_exceptions (P : AeadPrimitives) (sk spk em : Bytes) (e : String)
    (hm : em.head? = some 1)
    (herr : P.decodeAesGcm P.deriveSharedKey sk spk (em.drop 1) = .error e) :
    MessageEncoder.tryDecode P sk (.bytes spk) (.bytes em) =
      if jsIncludes e "Unsupported state or unable to authenticate data" ||
          jsIncludes e "invalid point"
      then .ok ⟨false, .raw em⟩ else .error e := by
  rw [MessageEncoder.tryDecode_bytes_eq]
  exact MessageEncoder.tryDecodeBytes_error hm herr

theorem tryDecode_filters_exceptions_witness :
    MessageEncoder.tryDecode (failingPrimitives "invalid point") [] (.bytes []) (.bytes [1]) =
      .ok ⟨false, .raw [1]⟩ ∧
    MessageEncoder.tryDecode (failingPrimitives "some other failure") [] (.bytes [])
        (.bytes [1]) = .error "some other failure" := by
  constructor
  · have h := tryDecode_filters_exceptions (failingPrimitives "invalid point") [] [] [1]
      "invalid point" rfl rfl
    rw [if_pos (by decide)] at h
    exact h
  · have h := tryDecode_filters_exceptions (failingPrimitives "some other failure") [] [] [1]
      "some other failure" rfl rfl
    rw [if_neg (by decide)] at h
    exact h

end SymbolMessage
namespace SymbolMessage

/-- C4: the legacy round trip — `tryDecodeDeprecated` applied (with the
same private-key codec and peer public key) to the envelope produced by
`encodeDeprecated` yields `{isDecoded := true}` carrying exactly the
plaintext, under the spec-stated behaviour of the AEAD primitives. -/
theorem tryDecodeDeprecated_encodeDeprecated_roundTrip (P : AeadPrimitives)
    (tagLen ivLen : Nat) (hP : AeadSpec P tagLen ivLen) (privB pubA M : Bytes) :
    ∃ env : Bytes,
      MessageEncoder.encodeDeprecated P privB (.bytes pubA) (.bytes M) = .ok env ∧
      MessageEncoder.tryDecodeDeprecated P privB (.bytes pubA) (.bytes env) =
        .ok ⟨true, .text (utf8ArrayToString M)⟩ ∧
      (utf8ArrayToString M).data.map Char.toNat = M.map Fin.val := by
  obtain ⟨tb, htl, htag⟩ := hP.tag_ok privB pubA M
  obtain ⟨vb, hvl, hiv⟩ := hP.iv_ok privB pubA M
  obtain ⟨cb, hcl, hct⟩ := hP.ct_ok privB pubA M
  refine ⟨1 :: (tb ++ vb ++ cb), ?_, ?_, utf8ArrayToString_codePoints M⟩
  · rw [MessageEncoder.encodeDeprecated_eq_encode_helper, MessageEncoder.encode_bytes_eq]
    exact MessageEncoder.encodeBytes_eq_of_parses P privB pubA M htag hiv hct
  · rw [MessageEncoder.tryDecodeDeprecated_eq_tryDecode_helper,
      MessageEncoder.tryDecode_bytes_eq]
    apply MessageEncoder.tryDecodeBytes_ok
    · rfl
    · show P.decodeAesGcm _ _ _ ((1 :: (tb ++ vb ++ cb)).drop 1) = _
      simp only [List.drop_succ_cons, List.drop_zero]
      exact hP.round_trip privB pubA M tb vb cb htag hiv hct

theorem tryDecodeDeprecated_encodeDeprecated_roundTrip_witness :
    ∃ env : Bytes,
      MessageEncoder.encodeDeprecated trivialPrimitives [] (.bytes [])
          (.bytes [104, 101, 108, 108, 111]) = .ok env ∧
      MessageEncoder.tryDecodeDeprecated trivialPrimitives [] (.bytes []) (.bytes env) =
        .ok ⟨true, .text (utf8ArrayToString [104, 101, 108, 108, 111])⟩ ∧
      (utf8ArrayToString [104, 101, 108, 108, 111]).data.map Char.toNat =
        ([104, 101, 108, 108, 111] : Bytes).map Fin.val :=
  tryDecodeDeprecated_encodeDeprecated_roundTrip trivialPrimitives 16 12
    trivialPrimitives_spec [] [] [104, 101, 108, 108, 111]

/-- C5: an input that normalizes to bytes whose first byte is not `1` is
passed through as `{isDecoded := false, message := those bytes}`, and the
outcome does not depend on the cryptographic primitives (no derivation or
decryption is attempted). -/
theorem tryDecode_foreign_passthrough (P Q : AeadPrimitives) (sk : Bytes)
    (spk input : JsInput) (spkb em : Bytes)
    (hspk : normalizeHexInput spk = .ok spkb)
    (hin : normalizeHexInput input = .ok em)
    (hm : em.head? ≠ some 1) :
    MessageEncoder.tryDecode P sk spk input = .ok ⟨false, .raw em⟩ ∧
    MessageEncoder.tryDecode P sk spk input = MessageEncoder.tryDecode Q sk spk input := by
  have hres : ∀ R : AeadPrimitives,
      MessageEncoder.tryDecode R sk spk input = .ok ⟨false, .raw em⟩ := by
    intro R
    unfold MessageEncoder.tryDecode
    rw [hspk, hin]
    simp only [bind, Except.bind]
    exact MessageEncoder.tryDecodeBytes_no_marker hm
  exact ⟨hres P, (hres P).trans (hres Q).symm⟩

theorem tryDecode_foreign_passthrough_witness :
    MessageEncoder.tryDecode trivialPrimitives [] (.bytes []) (.str "0203") =
      .ok ⟨false, .raw [2, 3]⟩ ∧
    MessageEncoder.tryDecode trivialPrimitives [] (.bytes []) (.str "0203") =
      MessageEncoder.tryDecode (failingPrimitives "x") [] (.bytes []) (.str "0203") :=
  tryDecode_foreign_passthrough trivialPrimitives (failingPrimitives "x") []
    (.bytes []) (.str "0203") [] [2, 3] rfl rfl (by decide)

end SymbolMessage
namespace SymbolMessage

/-- C6: on successful decryption the recovered bytes are widened
byte-for-byte — the resulting string has one character per byte and its
i-th code point is the i-th byte — and `tryDecode` returns exactly that
widened string (no multi-byte UTF-8 decoding). -/
theorem utf8ArrayToString_byte_widening (b : Bytes) (P : AeadPrimitives)
    (sk spk em m : Bytes) (hm : em.head? = some 1)
    (hdec : P.decodeAesGcm P.deriveSharedKey sk spk (em.drop 1) = .ok m) :
    (utf8ArrayToString b).length = b.length ∧
    (utf8ArrayToString b).data.map Char.toNat = b.map Fin.val ∧
    MessageEncoder.tryDecode P sk (.bytes spk) (.bytes em) =
      .ok ⟨true, .text (utf8ArrayToString m)⟩ := by
  refine ⟨utf8ArrayToString_length b, utf8ArrayToString_codePoints b, ?_⟩
  rw [MessageEncoder.tryDecode_bytes_eq]
  exact MessageEncoder.tryDecodeBytes_ok hm hdec

theorem utf8ArrayToString_byte_widening_witness :
    (utf8ArrayToString [0, 65, 255]).length = ([0, 65, 255] : Bytes).length ∧
    (utf8ArrayToString [0, 65, 255]).data.map Char.toNat =
      ([0, 65, 255] : Bytes).map Fin.val ∧
    MessageEncoder.tryDecode (constantPrimitives [200]) [] (.bytes []) (.bytes [1]) =
      .ok ⟨true, .text (utf8ArrayToString [200])⟩ :=
  utf8ArrayToString_byte_widening [0, 65, 255] (constantPrimitives [200]) [] [] [1] [200]
    rfl rfl

/-- C7: `tryDecodeDeprecated` is extensionally equal to `tryDecode` — the
hex-validity guard always passes on `uint8ToHex`'s output and the hex round
trip reconstructs the original envelope. -/
theorem tryDecodeDeprecated_ext_eq_tryDecode (P : AeadPrimitives) (sk : Bytes)
    (spk em : JsInput) :
    MessageEncoder.tryDecodeDeprecated P sk spk em =
      MessageEncoder.tryDecode P sk spk em :=
  MessageEncoder.tryDecodeDeprecated_eq_tryDecode_helper P sk spk em

end SymbolMessage
namespace SymbolMessage

/-- C8: the envelope built by `encode` over an `n`-byte message has exactly
`1 + tagLen + ivLen + n` bytes, given the AEAD primitive's fixed tag and IV
lengths and a ciphertext as long as the plaintext. -/
theorem encode_envelope_length (P : AeadPrimitives) (tagLen ivLen : Nat)
    (hP : AeadSpec P tagLen ivLen) (sk pk m : Bytes) :
    ∃ env : Bytes,
      MessageEncoder.encode P sk (.bytes pk) (.bytes m) = .ok env ∧
      env.length = 1 + tagLen + ivLen + m.length := by
  obtain ⟨tb, htl, htag⟩ := hP.tag_ok sk pk m
  obtain ⟨vb, hvl, hiv⟩ := hP.iv_ok sk pk m
  obtain ⟨cb, hcl, hct⟩ := hP.ct_ok sk pk m
  refine ⟨1 :: (tb ++ vb ++ cb), ?_, ?_⟩
  · rw [MessageEncoder.encode_bytes_eq]
    exact MessageEncoder.encodeBytes_eq_of_parses P sk pk m htag hiv hct
  · simp only [List.length_cons, List.length_append, htl, hvl, hcl]
    omega

theorem encode_envelope_length_witness :
    ∃ env : Bytes,
      MessageEncoder.encode trivialPrimitives [] (.bytes [])
          (.bytes [104, 101, 108, 108, 111]) = .ok env ∧
      env.length = 1 + 16 + 12 + 5 :=
  encode_envelope_length trivialPrimitives 16 12 trivialPrimitives_spec [] []
    [104, 101, 108, 108, 111]

/-- C9: whenever `encode` or `encodeDeprecated` returns an envelope, its
first byte is the marker `1`. -/
theorem encode_marker_byte (P : AeadPrimitives) (sk : Bytes) (rpk m : JsInput)
    (env envD : Bytes) :
    (MessageEncoder.encode P sk rpk m = .ok env → env.head? = some 1) ∧
    (MessageEncoder.encodeDeprecated P sk rpk m = .ok envD → envD.head? = some 1) := by
  constructor
  · intro henc
    unfold MessageEncoder.encode at henc
    cases hn : normalizeHexInput rpk with
    | error e => rw [hn] at henc; cases henc
    | ok rpkb =>
      rw [hn] at henc
      simp only [bind, Except.bind] at henc
      obtain ⟨t, ht⟩ := MessageEncoder.encodeBytes_ok_shape henc
      rw [ht]
      rfl
  · intro henc
    rw [MessageEncoder.encodeDeprecated_eq_encode_helper] at henc
    unfold MessageEncoder.encode at henc
    cases hn : normalizeHexInput rpk with
    | error e => rw [hn] at henc; cases henc
    | ok rpkb =>
      rw [hn] at henc
      simp only [bind, Except.bind] at henc
      obtain ⟨t, ht⟩ := MessageEncoder.encodeBytes_ok_shape henc
      rw [ht]
      rfl

theorem encode_marker_byte_witness :
    ((1 : Byte) :: (List.replicate 16 0 ++ List.replicate 12 0 ++
        [104, 101, 108, 108, 111])).head? = some 1 ∧
    ((1 : Byte) :: (List.replicate 16 0 ++ List.replicate 12 0 ++
        [104, 101, 108, 108, 111])).head? = some 1 := by
  constructor
  · exact (encode_marker_byte trivialPrimitives [] (.bytes [])
      (.bytes [104, 101, 108, 108, 111])
      (1 :: (List.replicate 16 0 ++ List.replicate 12 0 ++ [104, 101, 108, 108, 111])) []).1 rfl
  · exact (encode_marker_byte trivialPrimitives [] (.bytes [])
      (.bytes [104, 101, 108, 108, 111]) []
      (1 :: (List.replicate 16 0 ++ List.replicate 12 0 ++ [104, 101, 108, 108, 111]))).2 rfl

/-- C10: on the empty envelope `tryDecode` is total — the marker inspection
sees no byte, no primitive is consulted, and the outcome is
`{isDecoded := false, message := empty}`. -/
theorem tryDecode_empty_envelope (P Q : AeadPrimitives) (sk spkb : Bytes) :
    MessageEncoder.tryDecode P sk (.bytes spkb) (.bytes []) = .ok ⟨false, .raw []⟩ ∧
    MessageEncoder.tryDecode P sk (.bytes spkb) (.bytes []) =
      MessageEncoder.tryDecode Q sk (.bytes spkb) (.bytes []) := by
  have hres : ∀ R : AeadPrimitives,
      MessageEncoder.tryDecode R sk (.bytes spkb) (.bytes []) = .ok ⟨false, .raw []⟩ := by
    intro R
    rw [MessageEncoder.tryDecode_bytes_eq]
    exact MessageEncoder.tryDecodeBytes_no_marker (by simp)
  exact ⟨hres P, (hres P).trans (hres Q).symm⟩

end SymbolMessage
